import Mathlib

set_option maxRecDepth 8000

namespace TvStreams

/- Shallow embedding of src/scraper/scraper.py and src/scraper/video_converter.py.

   Python strings are modeled as Lean `String`, with every string primitive the
   code uses (lower, in, startswith, endswith, split, replace, strip, title,
   urllib quote) re-implemented over the underlying character list so that all
   definitions are executable and kernel-reducible.

   The HTTP fetch performed by requests.get is modeled as an oracle
   `fetch : String → Option String`; a `none` result models a raised exception
   (the scraper catches it, prints, and returns None). `datetime.utcnow()` is
   modeled as an explicit string argument. -/

/-- Bool test that `pre` is a leading segment of `l` (Python startswith; also the
    per-position test used to model `re.search` for the literal-prefixed patterns). -/
def leadsWith : List Char → List Char → Bool
  | [], _ => true
  | _ :: _, [] => false
  | a :: p1, b :: l1 => a == b && leadsWith p1 l1

/-- Python substring containment (the `in` operator) over character lists:
    some position of the haystack starts with the needle. -/
def auxContains (p : List Char) : List Char → Bool
  | [] => leadsWith p []
  | c :: t => leadsWith p (c :: t) || auxContains p t

/-- Python `pat in s`. -/
def hasSub (s pat : String) : Bool := auxContains pat.data s.data

/-- Python `s.startswith(pre)`. -/
def startsW (s pre : String) : Bool := leadsWith pre.data s.data

/-- Python `s.endswith(suf)`. -/
def endsW (s suf : String) : Bool := leadsWith suf.data.reverse s.data.reverse

/-- Python `s.lower()` (ASCII case mapping, as exercised by the scraper). -/
def pyLower (s : String) : String := ⟨s.data.map Char.toLower⟩

theorem leadsWith_length {m l : List Char} (h : leadsWith m l = true) :
    m.length ≤ l.length := by
  induction m generalizing l with
  | nil => simp
  | cons a p1 ih =>
    cases l with
    | nil => simp [leadsWith] at h
    | cons b l1 =>
      simp only [leadsWith, Bool.and_eq_true] at h
      simpa using ih h.2

/-- Python `s.replace(pat, rep)` for a non-empty pattern: left-to-right,
    non-overlapping replacement of every occurrence. The first argument is
    the number of characters still to drop from a region already matched
    (a match emits `rep` and then skips the matched characters). -/
def srAux (pat rep : List Char) : Nat → List Char → List Char
  | _, [] => []
  | skip + 1, _ :: t => srAux pat rep skip t
  | 0, c :: t =>
    if leadsWith pat (c :: t) then rep ++ srAux pat rep (pat.length - 1) t
    else c :: srAux pat rep 0 t

/-- Python `s.split(sep)` for a non-empty separator: left-to-right,
    non-overlapping; same skip-counter scheme as `srAux`. -/
def spAux (pat : List Char) : Nat → List Char → List (List Char)
  | _, [] => [[]]
  | skip + 1, _ :: t => spAux pat skip t
  | 0, c :: t =>
    if leadsWith pat (c :: t) then [] :: spAux pat (pat.length - 1) t
    else
      match spAux pat 0 t with
      | [] => [[c]]
      | x :: xs => (c :: x) :: xs

/-- Python `s.replace(pat, rep)` (the scraper only calls it with non-empty patterns). -/
def pyReplace (s pat rep : String) : String :=
  match pat.data with
  | [] => s
  | _ :: _ => ⟨srAux pat.data rep.data 0 s.data⟩

/-- Python `s.split(sep)` (the scraper only calls it with non-empty separators). -/
def pySplitStr (s sep : String) : List String :=
  match sep.data with
  | [] => [s]
  | _ :: _ => (spAux sep.data 0 s.data).map (fun l => ⟨l⟩)

/-- Python `s.strip()`. -/
def pyStrip (s : String) : String :=
  ⟨((s.data.dropWhile Char.isWhitespace).reverse.dropWhile Char.isWhitespace).reverse⟩

/-- Helper for `pyTitle`: tracks whether the previous character was alphabetic. -/
def pyTitleAux : Bool → List Char → List Char
  | _, [] => []
  | prev, c :: t =>
    (if c.isAlpha then (if prev then c.toLower else c.toUpper) else c) ::
      pyTitleAux c.isAlpha t

/-- Python `s.title()` (ASCII): first letter of each run of letters uppercased,
    the rest lowercased. -/
def pyTitle (s : String) : String := ⟨pyTitleAux false s.data⟩

/-! ### StreamScraper.detect_source_type (scraper.py lines 25-44)

The Python function takes a possibly-None URL; `Option String` models the input
and the output (`none` models Python's implicit `None` return when the
youtube branch matches but none of the path markers do). -/

def detect_source_type : Option String → Option String
  | none => some "unknown"
  | some url =>
    if url = "" then some "unknown"
    else
      let u := pyLower url
      if hasSub u "youtube.com" || hasSub u "youtu.be" then
        if hasSub u "/live" || hasSub u "/channel/" then some "youtube_live"
        else if hasSub u "/embed/" || hasSub u "/watch" then some "youtube_embed"
        else none
      else if hasSub u "mcaster.tv" then some "mcaster_iframe"
      else if hasSub u "stmify.com" || hasSub u "cdn.stmify.com" then some "stmify_iframe"
      else if endsW u ".m3u8" || hasSub u "m3u8" then some "direct_m3u8"
      else some "iframe"

/-- Written from the words of claim C1 as amended: identical provider-pattern
    cascade, with the amendment that a YouTube URL containing none of the four
    path markers yields no classification (Python's implicit None). -/
def detect_source_type_claim : Option String → Option String
  | none => some "unknown"
  | some url =>
    if url = "" then some "unknown"
    else
      let u := pyLower url
      if hasSub u "youtube.com" || hasSub u "youtu.be" then
        if hasSub u "/live" || hasSub u "/channel/" then some "youtube_live"
        else if hasSub u "/embed/" || hasSub u "/watch" then some "youtube_embed"
        else none
      else if hasSub u "mcaster.tv" then some "mcaster_iframe"
      else if hasSub u "stmify.com" then some "stmify_iframe"
      else if hasSub u "m3u8" then some "direct_m3u8"
      else some "iframe"

theorem leadsWith_iff {m l : List Char} :
    leadsWith m l = true ↔ ∃ t, l = m ++ t := by
  induction m generalizing l with
  | nil => simp [leadsWith]
  | cons a p1 ih =>
    cases l with
    | nil =>
      simp [leadsWith]
    | cons b l1 =>
      simp only [leadsWith, Bool.and_eq_true, beq_iff_eq, ih]
      constructor
      · rintro ⟨rfl, t, rfl⟩
        exact ⟨t, rfl⟩
      · rintro ⟨t, ht⟩
        obtain ⟨rfl, rfl⟩ := by simpa using ht
        exact ⟨rfl, t, rfl⟩

theorem auxContains_iff {p l : List Char} :
    auxContains p l = true ↔ ∃ l₁ t, l = l₁ ++ p ++ t := by
  induction l with
  | nil =>
    simp only [auxContains, leadsWith_iff]
    constructor
    · rintro ⟨t, ht⟩
      exact ⟨[], t, by simpa using ht⟩
    · rintro ⟨l₁, t, ht⟩
      have hnil := ht.symm
      simp only [List.append_assoc, List.append_eq_nil] at hnil
      obtain ⟨h1, h2, h3⟩ := hnil
      exact ⟨[], by simp [h2]⟩
  | cons c l1 ih =>
    simp only [auxContains, Bool.or_eq_true, leadsWith_iff, ih]
    constructor
    · rintro (⟨t, ht⟩ | ⟨l₁, t, ht⟩)
      · exact ⟨[], t, by simpa using ht⟩
      · exact ⟨c :: l₁, t, by simp [ht]⟩
    · rintro ⟨l₁, t, ht⟩
      cases l₁ with
      | nil => exact Or.inl ⟨t, by simpa using ht⟩
      | cons x l₂ =>
        right
        refine ⟨l₂, t, ?_⟩
        simpa using congrArg List.tail ht

theorem hasSub_of_hasSub_extended {s : String} {small pre big : String}
    (hsplit : big.data = pre.data ++ small.data)
    (h : hasSub s big = true) : hasSub s small = true := by
  unfold hasSub at h ⊢
  rw [auxContains_iff] at h ⊢
  obtain ⟨l₁, t, ht⟩ := h
  exact ⟨l₁ ++ pre.data, t, by simp [ht, hsplit]⟩

theorem hasSub_of_endsW {s : String} {small suf : String}
    (hsplit : suf.data.reverse = small.data.reverse ++ (suf.data.reverse.drop small.data.length))
    (h : endsW s suf = true) : hasSub s small = true := by
  unfold endsW at h
  unfold hasSub
  rw [leadsWith_iff] at h
  obtain ⟨t, ht⟩ := h
  rw [auxContains_iff]
  refine ⟨(t.reverse ++ (suf.data.reverse.drop small.data.length).reverse), [], ?_⟩
  have hs : s.data = t.reverse ++ suf.data := by
    have := congrArg List.reverse ht
    simpa using this
  rw [hs]
  have hsuf : suf.data = (suf.data.reverse.drop small.data.length).reverse ++ small.data := by
    have := congrArg List.reverse hsplit
    simpa using this
  rw [hsuf]
  simp

theorem bool_or_absorb {a b : Bool} (h : b = true → a = true) : (a || b) = a := by
  cases a <;> cases b <;> simp_all

theorem stmify_or (u : String) :
    (hasSub u "stmify.com" || hasSub u "cdn.stmify.com") = hasSub u "stmify.com" :=
  bool_or_absorb (fun h =>
    @hasSub_of_hasSub_extended u "stmify.com" "cdn." "cdn.stmify.com" (by decide) h)

theorem m3u8_or (u : String) :
    (endsW u ".m3u8" || hasSub u "m3u8") = hasSub u "m3u8" := by
  rw [Bool.or_comm]
  exact bool_or_absorb (fun h => @hasSub_of_endsW u "m3u8" ".m3u8" (by decide) h)

/-- Claim C1 (amended): `detect_source_type` classifies exactly as the claim
    describes — youtube_live / youtube_embed by path markers inside the
    youtube.com / youtu.be branch, then mcaster_iframe, stmify_iframe,
    direct_m3u8, with graceful fallback to iframe, and unknown for an empty or
    None URL — except that a URL containing youtube.com or youtu.be but none of
    the four path markers /live, /channel/, /embed/, /watch yields Python's
    implicit None (no classification) rather than iframe. -/
theorem c1_detect_source_type_amended (u : Option String) :
    detect_source_type u = detect_source_type_claim u := by
  cases u with
  | none => rfl
  | some url =>
    simp only [detect_source_type, detect_source_type_claim, stmify_or, m3u8_or]

/-- Claim C1 counterexample: the non-empty URL https://youtu.be/dQw4w9WgXcQ
    contains youtu.be but none of /live, /channel/, /embed/, /watch, so
    `detect_source_type` returns Python None — it is not classified into any of
    the named types, and in particular does not fall back to iframe. -/
theorem c1_detect_source_type_counterexample :
    detect_source_type (some "https://youtu.be/dQw4w9WgXcQ") = none ∧
    detect_source_type (some "https://youtu.be/dQw4w9WgXcQ") ≠ some "iframe" := by
  exact ⟨by decide, by decide⟩

/-! ### StreamScraper.extract_youtube_m3u8 (scraper.py lines 46-74)

`re.search` with the two patterns used by the code — a literal marker followed
by a `([^"]+)"` capture — is modeled by scanning every start position from the
left and, at the first position where the literal marker leads, taking the
maximal run of non-quote characters (which must be non-empty and followed by a
closing quote, else the scan moves on). -/

/-- Generic left-to-right scan: at each position, if `marker` leads there, try
    `f` on the remainder after the marker; first success wins (re.search). -/
def scanA {α : Type} (marker : List Char) (f : List Char → Option α) :
    List Char → Option α
  | [] => none
  | c :: t =>
    match (if leadsWith marker (c :: t) then f (List.drop marker.length (c :: t)) else none) with
    | some r => some r
    | none => scanA marker f t

/-- The `([^"]+)"` part of the two regex patterns: a non-empty run of
    non-quote characters terminated by a quote. -/
def captureQuoted (rest : List Char) : Option String :=
  let v := rest.takeWhile (fun c => c != '"')
  if v.isEmpty then none
  else if (rest.dropWhile (fun c => c != '"')).isEmpty then none
  else some ⟨v⟩

/-- `re.search(r'"hlsManifestUrl":"([^"]+)"', text)`, returning group 1. -/
def hlsSearch (text : String) : Option String :=
  scanA ("\"hlsManifestUrl\":\"").data captureQuoted text.data

/-- `re.search(r'"videoId":"([^"]+)"', text)`, returning group 1. -/
def videoIdSearch (text : String) : Option String :=
  scanA ("\"videoId\":\"").data captureQuoted text.data

/-- Python `s.split(sep)[0]` (the list returned by split is never empty). -/
def pySplitHead (s sep : String) : String := (pySplitStr s sep).headD ""

/-- StreamScraper.extract_youtube_m3u8, with the HTTP GET as an oracle; a
    `none` from the oracle models `requests.get` raising (the except branch
    prints the error and returns None). -/
def extract_youtube_m3u8 (fetch : String → Option String) (video_url : String) :
    Option String :=
  match fetch video_url with
  | none => none
  | some text =>
    match hlsSearch text with
    | some m => some (pyReplace m "\\u0026" "&")
    | none =>
      let video_id : Option String :=
        if hasSub video_url "/watch?v=" then
          some (pySplitHead ((pySplitStr video_url "v=").getD 1 "") "&")
        else if hasSub video_url "/embed/" then
          some (pySplitHead ((pySplitStr video_url "/embed/").getD 1 "") "?")
        else if hasSub video_url "/channel/" && hasSub video_url "/live" then
          videoIdSearch text
        else none
      match video_id with
      | some v => if v = "" then none else some ("https://www.youtube.com/embed/" ++ v)
      | none => none

/-- Written from the words of claim C3: the video id extracted from the
    /watch?v= or /embed/ URL shapes, or from a videoId match in the body for
    /channel/ + /live URLs ("a video id" being a non-empty string). -/
def claim_video_id (url body : String) : Option String :=
  if hasSub url "/watch?v=" then
    let v := pySplitHead ((pySplitStr url "v=").getD 1 "") "&"
    if v = "" then none else some v
  else if hasSub url "/embed/" then
    let v := pySplitHead ((pySplitStr url "/embed/").getD 1 "") "?"
    if v = "" then none else some v
  else if hasSub url "/channel/" && hasSub url "/live" then
    videoIdSearch body
  else none

/-- Written from the words of claim C3: first the hlsManifestUrl match with
    & unescaped, otherwise the embed URL built from the extracted video
    id, otherwise None; None as well when the request raises. -/
def extract_youtube_m3u8_claim (fetch : String → Option String) (url : String) :
    Option String :=
  match fetch url with
  | none => none
  | some body =>
    match hlsSearch body with
    | some manifest => some (pyReplace manifest "\\u0026" "&")
    | none =>
      match claim_video_id url body with
      | some vid => some ("https://www.youtube.com/embed/" ++ vid)
      | none => none

theorem strData_append (a b : String) : (a ++ b).data = a.data ++ b.data := rfl

theorem mk_ne_empty {v : List Char} (h : v ≠ []) : (⟨v⟩ : String) ≠ "" := by
  intro he
  exact h (by simpa using congrArg String.data he)

theorem captureQuoted_ne_empty {rest : List Char} {s : String}
    (h : captureQuoted rest = some s) : s ≠ "" := by
  unfold captureQuoted at h
  by_cases h1 : (rest.takeWhile (fun c => c != '"')).isEmpty
  · simp [h1] at h
  · by_cases h2 : (rest.dropWhile (fun c => c != '"')).isEmpty
    · simp [h1, h2] at h
    · simp [h1, h2] at h
      exact h ▸ mk_ne_empty (by simpa using h1)

theorem scanA_captureQuoted_ne_empty {marker : List Char} :
    ∀ {l : List Char}, scanA marker captureQuoted l ≠ some "" := by
  intro l
  induction l with
  | nil => simp [scanA]
  | cons c t ih =>
    unfold scanA
    by_cases hl : leadsWith marker (c :: t) = true
    · simp only [hl, if_true]
      cases hc : captureQuoted (List.drop marker.length (c :: t)) with
      | none => simpa using ih
      | some s =>
        have := captureQuoted_ne_empty hc
        simp only []
        intro he
        exact this (by simpa using he)
    · simp only [Bool.not_eq_true] at hl
      simp only [hl, Bool.false_eq_true, if_false]
      simpa using ih

theorem hlsSearch_ne_empty {text : String} : hlsSearch text ≠ some "" :=
  scanA_captureQuoted_ne_empty

theorem videoIdSearch_ne_empty {text : String} : videoIdSearch text ≠ some "" :=
  scanA_captureQuoted_ne_empty

theorem extract_eq_extract_claim (fetch : String → Option String) (url : String) :
    extract_youtube_m3u8 fetch url = extract_youtube_m3u8_claim fetch url := by
  simp only [extract_youtube_m3u8, extract_youtube_m3u8_claim, claim_video_id]
  cases hf : fetch url with
  | none => rfl
  | some text =>
    cases hh : hlsSearch text with
    | some m => simp [hh]
    | none =>
      simp only [hh]
      by_cases h1 : hasSub url "/watch?v=" = true
      · simp only [h1, if_true]
        split <;> rename_i hv <;> simp [hv]
      · simp only [h1]
        by_cases h2 : hasSub url "/embed/" = true
        · simp only [h2, if_true, Bool.false_eq_true, if_false]
          split <;> rename_i hv <;> simp [hv]
        · simp only [h2]
          by_cases h3 : (hasSub url "/channel/" && hasSub url "/live") = true
          · simp only [h3, if_true]
            cases hvid : videoIdSearch text with
            | none => simp [h1, h2, h3, hvid]
            | some v =>
              have hne : v ≠ "" := fun he => videoIdSearch_ne_empty (he ▸ hvid)
              simp [h1, h2, h3, hvid, hne]
          · simp [h1, h2, h3]

/-- Claim C3: `extract_youtube_m3u8` applies its extraction steps in the
    claimed order — first the "hlsManifestUrl" capture (returned with every
    & escape replaced by &), then the video id from /watch?v= or /embed/
    URL shapes or a "videoId" capture for /channel/ + /live URLs (returned as
    https://www.youtube.com/embed/<video_id>), otherwise None — and returns
    None when the HTTP request raises. -/
theorem c3_extract_youtube_m3u8_order (fetch : String → Option String) (url : String) :
    extract_youtube_m3u8 fetch url = extract_youtube_m3u8_claim fetch url :=
  extract_eq_extract_claim fetch url

/-! ### StreamScraper.process_source (scraper.py lines 76-92) -/

/-- The scheme normalization at the top of process_source. -/
def pyNormalize (u : String) : String :=
  if startsW u "//" then "https:" ++ u
  else if !(startsW u "http") then "https://" ++ u
  else u

def process_source (fetch : String → Option String) : Option String → Option String
  | none => none
  | some u =>
    if u = "" then none
    else
      let n := pyNormalize u
      let t := detect_source_type (some n)
      if t = some "youtube_live" ∨ t = some "youtube_embed" then
        match extract_youtube_m3u8 fetch n with
        | some p => if p = "" then some n else some p
        | none => some n
      else some n

theorem data_eq_nil_iff {s : String} : s.data = [] ↔ s = "" := by
  cases s with
  | mk d =>
    constructor
    · intro h
      subst h
      rfl
    · intro h
      simpa using congrArg String.data h

theorem srAux_ne_nil {pat rep l : List Char}
    (hl : l ≠ []) (hr : rep ≠ []) : srAux pat rep 0 l ≠ [] := by
  cases l with
  | nil => exact absurd rfl hl
  | cons c t =>
    rw [srAux]
    split
    · simp [hr]
    · simp

theorem pyReplace_u0026_ne_empty {m : String} (hm : m ≠ "") :
    pyReplace m "\\u0026" "&" ≠ "" := by
  have heq : pyReplace m "\\u0026" "&" =
      ⟨srAux ("\\u0026").data ['&'] 0 m.data⟩ := rfl
  rw [heq]
  intro h0
  have hdat : srAux ("\\u0026").data ['&'] 0 m.data = [] := by
    simpa using congrArg String.data h0
  exact srAux_ne_nil (fun hd => hm (data_eq_nil_iff.mp hd)) (by simp) hdat

theorem extract_youtube_m3u8_ne_empty (fetch : String → Option String)
    (url : String) : extract_youtube_m3u8 fetch url ≠ some "" := by
  simp only [extract_youtube_m3u8]
  cases hf : fetch url with
  | none => simp
  | some text =>
    cases hh : hlsSearch text with
    | some m =>
      simp only [hh]
      intro he
      have hm : pyReplace m "\\u0026" "&" = "" := by simpa using he
      have hmne : m ≠ "" := fun h0 => hlsSearch_ne_empty (h0 ▸ hh)
      exact pyReplace_u0026_ne_empty hmne hm
    | none =>
      simp only [hh]
      cases hvid : (if hasSub url "/watch?v=" then
          some (pySplitHead ((pySplitStr url "v=").getD 1 "") "&")
        else if hasSub url "/embed/" then
          some (pySplitHead ((pySplitStr url "/embed/").getD 1 "") "?")
        else if hasSub url "/channel/" && hasSub url "/live" then
          videoIdSearch text
        else none) with
      | none => simp [hvid]
      | some v =>
        simp only [hvid]
        by_cases hv : v = ""
        · simp [hv]
        · simp only [hv, if_false]
          intro he
          have : "https://www.youtube.com/embed/" ++ v = "" := by simpa using he
          have hd := congrArg String.data this
          rw [strData_append] at hd
          simp at hd

/-- Claim C2: for a None or empty input process_source returns None, and for
    every non-empty input it returns a non-None playable URL — the URL
    extracted by extract_youtube_m3u8 (falling back to the scheme-normalized
    input when extraction returns None) when the normalized URL is classified
    youtube_live or youtube_embed, and the scheme-normalized input unchanged
    for every other classification. -/
theorem c2_process_source_total (fetch : String → Option String) :
    process_source fetch none = none ∧
    process_source fetch (some "") = none ∧
    ∀ u : String, u ≠ "" →
      process_source fetch (some u) =
        some (if detect_source_type (some (pyNormalize u)) = some "youtube_live" ∨
                 detect_source_type (some (pyNormalize u)) = some "youtube_embed" then
                (extract_youtube_m3u8 fetch (pyNormalize u)).getD (pyNormalize u)
              else pyNormalize u) := by
  refine ⟨rfl, by simp [process_source], ?_⟩
  intro u hu
  unfold process_source
  simp only [hu, if_false]
  by_cases hc : detect_source_type (some (pyNormalize u)) = some "youtube_live" ∨
      detect_source_type (some (pyNormalize u)) = some "youtube_embed"
  · simp only [hc, if_true]
    cases he : extract_youtube_m3u8 fetch (pyNormalize u) with
    | none => simp
    | some p =>
      have hpne : p ≠ "" := fun h0 => extract_youtube_m3u8_ne_empty fetch _ (h0 ▸ he)
      simp [hpne]
  · simp [hc]

/-- Witness for claim C2 at a concrete input: a bare domain gets the https
    scheme and, not being a YouTube URL, is returned unchanged. -/
theorem c2_process_source_total_witness :
    process_source (fun _ => none) (some "example.com") = some "https://example.com" := by
  have h := (c2_process_source_total (fun _ => none)).2.2 "example.com" (by decide)
  exact h.trans (by decide)

theorem lw_self_append (m t : List Char) : leadsWith m (m ++ t) = true := by
  induction m with
  | nil => rfl
  | cons a p1 ih => simp [leadsWith, ih]

theorem startsW_http_normalize (u : String) : startsW (pyNormalize u) "http" = true := by
  unfold pyNormalize
  split
  · unfold startsW
    rw [strData_append]
    have hsp : ("https:").data = ("http").data ++ ['s', ':'] := by decide
    rw [hsp, List.append_assoc]
    exact lw_self_append _ _
  · split
    · unfold startsW
      rw [strData_append]
      have hsp : ("https://").data = ("http").data ++ ['s', ':', '/', '/'] := by decide
      rw [hsp, List.append_assoc]
      exact lw_self_append _ _
    · rename_i h1 h2
      simpa using h2

theorem startsW_http_embed (v : String) :
    startsW ("https://www.youtube.com/embed/" ++ v) "http" = true := by
  unfold startsW
  rw [strData_append]
  have hsp : ("https://www.youtube.com/embed/").data =
      ("http").data ++ ("s://www.youtube.com/embed/").data := by decide
  rw [hsp, List.append_assoc]
  exact lw_self_append _ _

/-- Claim C10 counterexample: with a remote page whose hlsManifestUrl value is
    the single character x, process_source returns "x", which does not start
    with http — so not every non-None URL returned by process_source starts
    with http. -/
theorem c10_process_source_counterexample :
    process_source (fun _ => some "\"hlsManifestUrl\":\"x\"")
        (some "youtube.com/watch?v=abc") = some "x" ∧
    startsW "x" "http" = false := ⟨by decide, by decide⟩

/-- Claim C10 (amended): the scheme-normalized input always starts with http
    (protocol-relative inputs get https:, schemeless inputs get https://), and
    every non-None URL returned by process_source starts with http unless it
    is an hlsManifestUrl value captured from the fetched page body, which is
    returned as-is (after unescaping &). -/
theorem c10_process_source_amended :
    (∀ u : String, startsW (pyNormalize u) "http" = true) ∧
    (∀ (fetch : String → Option String) (u r : String),
      process_source fetch (some u) = some r →
      startsW r "http" = true ∨
      ∃ body m, fetch (pyNormalize u) = some body ∧ hlsSearch body = some m ∧
        r = pyReplace m "\\u0026" "&") := by
  refine ⟨startsW_http_normalize, ?_⟩
  intro fetch u r hr
  unfold process_source at hr
  by_cases hu : u = ""
  · simp [hu] at hr
  · simp only [hu, if_false] at hr
    by_cases hc : detect_source_type (some (pyNormalize u)) = some "youtube_live" ∨
        detect_source_type (some (pyNormalize u)) = some "youtube_embed"
    · simp only [hc, if_true] at hr
      cases he : extract_youtube_m3u8 fetch (pyNormalize u) with
      | none =>
        rw [he] at hr
        simp only [Option.some.injEq] at hr
        exact Or.inl (hr ▸ startsW_http_normalize u)
      | some p =>
        rw [he] at hr
        by_cases hp : p = ""
        · simp only [hp, if_true] at hr
          simp only [Option.some.injEq] at hr
          exact Or.inl (hr ▸ startsW_http_normalize u)
        · simp only [hp, if_false, Option.some.injEq] at hr
          subst hr
          rw [extract_eq_extract_claim] at he
          unfold extract_youtube_m3u8_claim at he
          cases hfn : fetch (pyNormalize u) with
          | none => simp [hfn] at he
          | some body =>
            simp only [hfn] at he
            cases hhl : hlsSearch body with
            | some m =>
              simp only [hhl, Option.some.injEq] at he
              exact Or.inr ⟨body, m, rfl, hhl, he.symm⟩
            | none =>
              simp only [hhl] at he
              cases hcv : claim_video_id (pyNormalize u) body with
              | none => simp [hcv] at he
              | some vid =>
                simp only [hcv, Option.some.injEq] at he
                exact Or.inl (he ▸ startsW_http_embed vid)
    · simp only [hc, if_false, Option.some.injEq] at hr
      exact Or.inl (hr ▸ startsW_http_normalize u)

/-- Witness for the amended claim C10 at a concrete input: a schemeless direct
    m3u8 URL is normalized to https:// and returned, starting with http. -/
theorem c10_process_source_amended_witness :
    startsW "https://a.m3u8" "http" = true ∨
    ∃ body m,
      (fun (_ : String) => (none : Option String)) (pyNormalize "a.m3u8") = some body ∧
      hlsSearch body = some m ∧ "https://a.m3u8" = pyReplace m "\\u0026" "&" :=
  c10_process_source_amended.2 (fun _ => none) "a.m3u8" "https://a.m3u8" (by decide)

/-! ### TelegramVideoConverter.convert_telegram_link (video_converter.py lines 22-66)

The three `re.search` patterns each consist of a literal marker followed by
capture groups whose character classes exclude the following delimiter, so
greedy matching with backtracking is equivalent to taking maximal runs:
  - `t\.me/([^/]+)/(\d+)`        marker t.me/
  - `t\.me/c/(\d+)/(\d+)`        marker t.me/c/
  - `telegram\.me/([^/]+)/(\d+)` marker telegram.me/
`re.search` tries every start position from the left, which `scanA` models. -/

def tmeM : List Char := ['t', '.', 'm', 'e', '/']
def tmecM : List Char := ['t', '.', 'm', 'e', '/', 'c', '/']
def telegramM : List Char := ['t', 'e', 'l', 'e', 'g', 'r', 'a', 'm', '.', 'm', 'e', '/']

/-- Group extraction for `([^/]+)/(\d+)` after a literal marker: a non-empty
    maximal run of non-slash characters, a slash, then a non-empty maximal run
    of digits. -/
def matchChanPost (rest : List Char) : Option (String × String) :=
  let chan := rest.takeWhile (fun c => c != '/')
  if chan.isEmpty then none
  else
    match rest.dropWhile (fun c => c != '/') with
    | [] => none
    | _ :: r2 =>
      let digs := r2.takeWhile Char.isDigit
      if digs.isEmpty then none else some (⟨chan⟩, ⟨digs⟩)

/-- Group extraction for `(\d+)/(\d+)` after the literal marker t.me/c/. -/
def matchCPost (rest : List Char) : Option (String × String) :=
  let d1 := rest.takeWhile Char.isDigit
  if d1.isEmpty then none
  else
    match rest.dropWhile Char.isDigit with
    | '/' :: r2 =>
      let d2 := r2.takeWhile Char.isDigit
      if d2.isEmpty then none else some (⟨d1⟩, ⟨d2⟩)
    | _ => none

def tgPat1 (l : List Char) : Option (String × String) := scanA tmeM matchChanPost l

def tgPat2 (l : List Char) : Option (String × String) := scanA tmecM matchCPost l

def tgPat3 (l : List Char) : Option (String × String) := scanA telegramM matchChanPost l

structure TgRec where
  original : String
  embed_url : String
  preview_url : String
  type : String
deriving DecidableEq, Repr

/-- The record built for a matched Telegram pattern (channel, post_id). -/
def mkTgEmbed (orig ch pid : String) : TgRec :=
  { original := orig
    embed_url := "https://t.me/" ++ ch ++ "/" ++ pid ++ "?embed=1&mode=tme"
    preview_url := "https://t.me/" ++ ch ++ "/" ++ pid
    type := "telegram_embed" }

def convert_telegram_link : Option String → Option TgRec
  | none => none
  | some s0 =>
    if s0 = "" then none
    else
      let s := pyStrip s0
      match tgPat1 s.data with
      | some (ch, pid) => some (mkTgEmbed s ch pid)
      | none =>
        match tgPat2 s.data with
        | some (ch, pid) => some (mkTgEmbed s ch pid)
        | none =>
          match tgPat3 s.data with
          | some (ch, pid) => some (mkTgEmbed s ch pid)
          | none =>
            if startsW s "http" &&
                (hasSub (pyLower s) ".mp4" || hasSub (pyLower s) ".mkv" ||
                  hasSub (pyLower s) ".avi") then
              some { original := s, embed_url := s, preview_url := s,
                     type := "direct_video" }
            else none

/-! Scan lemmas for the three patterns. -/

theorem scanA_cons_skip {α : Type} {marker : List Char} {f : List Char → Option α}
    {c : Char} {t : List Char} (h : leadsWith marker (c :: t) = false) :
    scanA marker f (c :: t) = scanA marker f t := by
  simp [scanA, h]

theorem scanA_cons_fail {α : Type} {marker : List Char} {f : List Char → Option α}
    {c : Char} {t : List Char} (h1 : leadsWith marker (c :: t) = true)
    (h2 : f (List.drop marker.length (c :: t)) = none) :
    scanA marker f (c :: t) = scanA marker f t := by
  simp [scanA, h1, h2]

theorem scanA_self {α : Type} {f : List Char → Option α} {c : Char}
    {m t : List Char} {r : α} (h2 : f t = some r) :
    scanA (c :: m) f ((c :: m) ++ t) = some r := by
  have h1 : leadsWith (c :: m) (c :: (m ++ t)) = true := by
    have := lw_self_append (c :: m) t
    simpa using this
  have hdrop : List.drop (c :: m).length (c :: (m ++ t)) = t := by
    simpa using List.drop_left m t
  rw [List.cons_append]
  simp [scanA, h1, hdrop, h2]

theorem lw1 {a b : Char} {p1 l1 : List Char} (h : (a == b) = false) :
    leadsWith (a :: p1) (b :: l1) = false := by
  simp [leadsWith, h]

theorem lw2 {a1 a2 b1 b2 : Char} {p1 l1 : List Char} (h : (a2 == b2) = false) :
    leadsWith (a1 :: a2 :: p1) (b1 :: b2 :: l1) = false := by
  simp [leadsWith, h]

theorem isDigit_bne_slash {c : Char} (h : c.isDigit = true) : (c != '/') = true := by
  have hne : c ≠ '/' := fun he => by subst he; exact absurd h (by decide)
  simpa using hne

theorem takeWhile_append_all {p : Char → Bool} {l1 : List Char} {a : Char}
    {l2 : List Char} (h1 : ∀ c ∈ l1, p c = true) (h2 : p a = false) :
    (l1 ++ a :: l2).takeWhile p = l1 ∧ (l1 ++ a :: l2).dropWhile p = a :: l2 := by
  induction l1 with
  | nil => simp [List.takeWhile_cons, List.dropWhile_cons, h2]
  | cons c t ih =>
    have hc : p c = true := h1 c (by simp)
    obtain ⟨ih1, ih2⟩ := ih (fun x hx => h1 x (by simp [hx]))
    constructor
    · simp [List.takeWhile_cons, hc, ih1]
    · simp [List.dropWhile_cons, hc, ih2]

theorem takeWhile_all {p : Char → Bool} {l : List Char}
    (h : ∀ c ∈ l, p c = true) :
    l.takeWhile p = l ∧ l.dropWhile p = [] := by
  induction l with
  | nil => simp
  | cons c t ih =>
    have hc : p c = true := h c (by simp)
    obtain ⟨ih1, ih2⟩ := ih (fun x hx => h x (by simp [hx]))
    constructor
    · simp [List.takeWhile_cons, hc, ih1]
    · simp [List.dropWhile_cons, hc, ih2]

theorem matchChanPost_digits {dsd : List Char}
    (hds : ∀ a ∈ dsd, a.isDigit = true) : matchChanPost dsd = none := by
  obtain ⟨htw, hdw⟩ :=
    takeWhile_all (p := fun c => c != '/') (fun c hc => isDigit_bne_slash (hds c hc))
  cases dsd with
  | nil => rfl
  | cons a tl =>
    unfold matchChanPost
    simp only [htw, hdw, List.isEmpty_cons]
    simp

/-- The matcher of patterns 1 and 3 on `channel ++ / ++ digits`. -/
theorem matchChanPost_append {ch ds : String}
    (hch : ch ≠ "") (hslash : '/' ∉ ch.data)
    (hds : ∀ c ∈ ds.data, c.isDigit = true) (hdsne : ds ≠ "") :
    matchChanPost (ch.data ++ '/' :: ds.data) = some (ch, ds) := by
  have h1 : ∀ c ∈ ch.data, (c != '/') = true := by
    intro c hc
    have : c ≠ '/' := fun he => hslash (he ▸ hc)
    simpa using this
  obtain ⟨htw, hdw⟩ := @takeWhile_append_all (fun c => c != '/') ch.data '/' ds.data h1
    (show (('/' : Char) != '/') = false by decide)
  obtain ⟨htw2, _⟩ := takeWhile_all (p := Char.isDigit) hds
  have hchd : ch.data.isEmpty = false := by
    cases hc : ch.data with
    | nil => exact absurd (data_eq_nil_iff.mp hc) hch
    | cons x xs => rfl
  have hdsd : ds.data.isEmpty = false := by
    cases hc : ds.data with
    | nil => exact absurd (data_eq_nil_iff.mp hc) hdsne
    | cons x xs => rfl
  unfold matchChanPost
  simp only [htw, hdw, htw2, hchd, hdsd, Bool.false_eq_true, if_false]

/-- Scanning for a marker that starts with the letter t never matches inside a
    run of digits. -/
theorem scan_digits {α : Type} (f : List Char → Option α) (m1 : List Char) :
    ∀ d : List Char, (∀ a ∈ d, a.isDigit = true) →
      scanA ('t' :: m1) f d = none := by
  intro d hd
  induction d with
  | nil => rfl
  | cons a tl ih =>
    have ha : a.isDigit = true := hd a (by simp)
    have hne : (('t' : Char) == a) = false := by
      have : a ≠ 't' := fun he => by subst he; exact absurd ha (by decide)
      simpa using fun he => this he.symm
    rw [scanA_cons_skip (lw1 hne)]
    exact ih (fun x hx => hd x (by simp [hx]))

/-- Peeling t.me/ against `channel ++ / ++ rest` when the channel part has no
    slash: the only way the marker can lead is channel = .me . -/
theorem tme_peel {c' dsd t : List Char}
    (hc' : ∀ x ∈ c', x ≠ '/')
    (ht2 : c' ++ '/' :: dsd = '.' :: 'm' :: 'e' :: '/' :: t) :
    c' = ['.', 'm', 'e'] ∧ t = dsd := by
  rcases c' with _ | ⟨b1, c1⟩
  · rw [List.nil_append] at ht2
    injection ht2 with h1 _
    exact absurd h1 (by decide)
  · rw [List.cons_append] at ht2
    injection ht2 with h1 ht3
    subst h1
    rcases c1 with _ | ⟨b2, c2⟩
    · rw [List.nil_append] at ht3
      injection ht3 with h2 _
      exact absurd h2 (by decide)
    · rw [List.cons_append] at ht3
      injection ht3 with h2 ht4
      subst h2
      rcases c2 with _ | ⟨b3, c3⟩
      · rw [List.nil_append] at ht4
        injection ht4 with h3 _
        exact absurd h3 (by decide)
      · rw [List.cons_append] at ht4
        injection ht4 with h3 ht5
        subst h3
        rcases c3 with _ | ⟨b4, c4⟩
        · rw [List.nil_append] at ht5
          injection ht5 with _ h5
          exact ⟨rfl, h5.symm⟩
        · rw [List.cons_append] at ht5
          injection ht5 with h4 _
          exact absurd h4 (hc' b4 (by simp))

/-- Peeling t.me/c/ against `channel ++ / ++ digits` is impossible. -/
theorem tmec_peel {c' dsd t : List Char}
    (hc' : ∀ x ∈ c', x ≠ '/')
    (hds : ∀ a ∈ dsd, a.isDigit = true)
    (ht2 : c' ++ '/' :: dsd = '.' :: 'm' :: 'e' :: '/' :: 'c' :: '/' :: t) :
    False := by
  rcases c' with _ | ⟨b1, c1⟩
  · rw [List.nil_append] at ht2
    injection ht2 with h1 _
    exact absurd h1 (by decide)
  · rw [List.cons_append] at ht2
    injection ht2 with h1 ht3
    subst h1
    rcases c1 with _ | ⟨b2, c2⟩
    · rw [List.nil_append] at ht3
      injection ht3 with h2 _
      exact absurd h2 (by decide)
    · rw [List.cons_append] at ht3
      injection ht3 with h2 ht4
      subst h2
      rcases c2 with _ | ⟨b3, c3⟩
      · rw [List.nil_append] at ht4
        injection ht4 with h3 _
        exact absurd h3 (by decide)
      · rw [List.cons_append] at ht4
        injection ht4 with h3 ht5
        subst h3
        rcases c3 with _ | ⟨b4, c4⟩
        · rw [List.nil_append] at ht5
          injection ht5 with _ h5
          have hcdig : ('c' : Char).isDigit = true := hds 'c' (by simp [h5])
          exact absurd hcdig (by decide)
        · rw [List.cons_append] at ht5
          injection ht5 with h4 _
          exact absurd h4 (hc' b4 (by simp))

theorem scan_pat1_fail {dsd : List Char} (hds : ∀ a ∈ dsd, a.isDigit = true) :
    ∀ chd : List Char, (∀ a ∈ chd, a ≠ '/') →
      scanA tmeM matchChanPost (chd ++ '/' :: dsd) = none := by
  unfold tmeM
  intro chd
  induction chd with
  | nil =>
    intro _
    rw [List.nil_append, scanA_cons_skip (lw1 (by decide))]
    exact scan_digits matchChanPost _ dsd hds
  | cons a c' ih =>
    intro hch
    by_cases hlw : leadsWith ['t', '.', 'm', 'e', '/'] ((a :: c') ++ '/' :: dsd) = true
    · obtain ⟨t, ht⟩ := leadsWith_iff.mp hlw
      rw [List.cons_append] at ht
      have ht' : a :: (c' ++ '/' :: dsd) = 't' :: '.' :: 'm' :: 'e' :: '/' :: t := ht
      injection ht' with h1 ht2
      subst h1
      obtain ⟨hc'eq, _⟩ := tme_peel (fun x hx => hch x (by simp [hx])) ht2
      subst hc'eq
      have hself : leadsWith ['t', '.', 'm', 'e', '/']
          ('t' :: '.' :: 'm' :: 'e' :: '/' :: dsd) = true := by
        have := lw_self_append ['t', '.', 'm', 'e', '/'] dsd
        simpa using this
      rw [List.cons_append]
      have hcons : ('.' :: 'm' :: 'e' :: []) ++ '/' :: dsd = '.' :: 'm' :: 'e' :: '/' :: dsd := rfl
      rw [hcons]
      rw [scanA_cons_fail hself (matchChanPost_digits hds)]
      rw [scanA_cons_skip (lw1 (by decide))]
      rw [scanA_cons_skip (lw1 (by decide))]
      rw [scanA_cons_skip (lw1 (by decide))]
      rw [scanA_cons_skip (lw1 (by decide))]
      exact scan_digits matchChanPost _ dsd hds
    · have hlw' : leadsWith ['t', '.', 'm', 'e', '/'] ((a :: c') ++ '/' :: dsd) = false := by
        simpa using hlw
      rw [List.cons_append] at hlw' ⊢
      rw [scanA_cons_skip hlw']
      exact ih (fun x hx => hch x (by simp [hx]))

theorem scan_pat2_fail {dsd : List Char} (hds : ∀ a ∈ dsd, a.isDigit = true) :
    ∀ chd : List Char, (∀ a ∈ chd, a ≠ '/') →
      scanA tmecM matchCPost (chd ++ '/' :: dsd) = none := by
  unfold tmecM
  intro chd
  induction chd with
  | nil =>
    intro _
    rw [List.nil_append, scanA_cons_skip (lw1 (by decide))]
    exact scan_digits matchCPost _ dsd hds
  | cons a c' ih =>
    intro hch
    by_cases hlw : leadsWith ['t', '.', 'm', 'e', '/', 'c', '/']
        ((a :: c') ++ '/' :: dsd) = true
    · obtain ⟨t, ht⟩ := leadsWith_iff.mp hlw
      rw [List.cons_append] at ht
      have ht' : a :: (c' ++ '/' :: dsd) =
          't' :: '.' :: 'm' :: 'e' :: '/' :: 'c' :: '/' :: t := ht
      injection ht' with h1 ht2
      exact absurd (tmec_peel (fun x hx => hch x (by simp [hx])) hds ht2) id
    · have hlw' : leadsWith ['t', '.', 'm', 'e', '/', 'c', '/']
          ((a :: c') ++ '/' :: dsd) = false := by
        simpa using hlw
      rw [List.cons_append] at hlw' ⊢
      rw [scanA_cons_skip hlw']
      exact ih (fun x hx => hch x (by simp [hx]))

theorem scan_pat1_fail_tel {chd dsd : List Char}
    (hch : ∀ a ∈ chd, a ≠ '/') (hds : ∀ a ∈ dsd, a.isDigit = true) :
    scanA tmeM matchChanPost (telegramM ++ (chd ++ '/' :: dsd)) = none := by
  unfold tmeM telegramM
  rw [show (['t', 'e', 'l', 'e', 'g', 'r', 'a', 'm', '.', 'm', 'e', '/'] : List Char) ++
      (chd ++ '/' :: dsd) =
      't' :: 'e' :: 'l' :: 'e' :: 'g' :: 'r' :: 'a' :: 'm' :: '.' :: 'm' :: 'e' :: '/' ::
      (chd ++ '/' :: dsd) from rfl]
  rw [scanA_cons_skip (lw2 (by decide))]
  rw [scanA_cons_skip (lw1 (by decide))]
  rw [scanA_cons_skip (lw1 (by decide))]
  rw [scanA_cons_skip (lw1 (by decide))]
  rw [scanA_cons_skip (lw1 (by decide))]
  rw [scanA_cons_skip (lw1 (by decide))]
  rw [scanA_cons_skip (lw1 (by decide))]
  rw [scanA_cons_skip (lw1 (by decide))]
  rw [scanA_cons_skip (lw1 (by decide))]
  rw [scanA_cons_skip (lw1 (by decide))]
  rw [scanA_cons_skip (lw1 (by decide))]
  exact scan_pat1_fail hds chd hch

theorem scan_pat2_fail_tel {chd dsd : List Char}
    (hch : ∀ a ∈ chd, a ≠ '/') (hds : ∀ a ∈ dsd, a.isDigit = true) :
    scanA tmecM matchCPost (telegramM ++ (chd ++ '/' :: dsd)) = none := by
  unfold tmecM telegramM
  rw [show (['t', 'e', 'l', 'e', 'g', 'r', 'a', 'm', '.', 'm', 'e', '/'] : List Char) ++
      (chd ++ '/' :: dsd) =
      't' :: 'e' :: 'l' :: 'e' :: 'g' :: 'r' :: 'a' :: 'm' :: '.' :: 'm' :: 'e' :: '/' ::
      (chd ++ '/' :: dsd) from rfl]
  rw [scanA_cons_skip (lw2 (by decide))]
  rw [scanA_cons_skip (lw1 (by decide))]
  rw [scanA_cons_skip (lw1 (by decide))]
  rw [scanA_cons_skip (lw1 (by decide))]
  rw [scanA_cons_skip (lw1 (by decide))]
  rw [scanA_cons_skip (lw1 (by decide))]
  rw [scanA_cons_skip (lw1 (by decide))]
  rw [scanA_cons_skip (lw1 (by decide))]
  rw [scanA_cons_skip (lw1 (by decide))]
  rw [scanA_cons_skip (lw1 (by decide))]
  rw [scanA_cons_skip (lw1 (by decide))]
  exact scan_pat2_fail hds chd hch

/-! Strip and assembly lemmas. -/

theorem dropWhile_eq_self_of_head {p : Char → Bool} {c : Char} {t : List Char}
    (h : p c = false) : (c :: t).dropWhile p = c :: t := by
  simp [List.dropWhile_cons, h]

theorem pyStrip_eq_self_of_ends {s : String}
    (hhead : ∃ c0 t, s.data = c0 :: t ∧ c0.isWhitespace = false)
    (hlast : ∃ c1 l1, s.data.reverse = c1 :: l1 ∧ c1.isWhitespace = false) :
    pyStrip s = s := by
  obtain ⟨c0, t, hd, hw0⟩ := hhead
  obtain ⟨c1, l1, hr, hw1⟩ := hlast
  have h1 : s.data.dropWhile Char.isWhitespace = s.data := by
    rw [hd]
    exact dropWhile_eq_self_of_head hw0
  have h2 : s.data.reverse.dropWhile Char.isWhitespace = s.data.reverse := by
    rw [hr]
    exact dropWhile_eq_self_of_head hw1
  unfold pyStrip
  rw [h1, h2, List.reverse_reverse]

theorem isWS_false_of_isDigit {c : Char} (h : c.isDigit = true) :
    c.isWhitespace = false := by
  cases hw : c.isWhitespace
  · rfl
  · exfalso
    have hw' : ((c = ' ' ∨ c = '\t') ∨ c = '\r') ∨ c = '\n' := by
      simpa [Char.isWhitespace] using hw
    rcases hw' with ((rfl | rfl) | rfl) | rfl <;> exact absurd h (by decide)

theorem data_concat3 (pre ch ds : String) :
    (pre ++ ch ++ "/" ++ ds).data = pre.data ++ (ch.data ++ '/' :: ds.data) := by
  rw [strData_append, strData_append, strData_append]
  rw [show ("/" : String).data = ['/'] from rfl]
  simp

theorem rev_cons_of_tail {pre chD : List Char} {ds : String} {c1 : Char} {l1 : List Char}
    (hr : ds.data.reverse = c1 :: l1) :
    ∃ l2, (pre ++ (chD ++ '/' :: ds.data)).reverse = c1 :: l2 := by
  refine ⟨l1 ++ '/' :: (chD.reverse ++ pre.reverse), ?_⟩
  simp [List.reverse_append, hr]

theorem last_digit_of_ds {ds : String} (hdsne : ds ≠ "")
    (hds : ∀ c ∈ ds.data, c.isDigit = true) :
    ∃ c1 l1, ds.data.reverse = c1 :: l1 ∧ c1.isDigit = true := by
  cases hr : ds.data.reverse with
  | nil =>
    exact absurd (data_eq_nil_iff.mp (by simpa using congrArg List.reverse hr)) hdsne
  | cons c1 l1 =>
    refine ⟨c1, l1, rfl, hds c1 ?_⟩
    have hmem : c1 ∈ ds.data.reverse := by rw [hr]; simp
    simpa using hmem

theorem ne_empty_of_concat3 {pre ch ds : String} {c0 : Char} {t0 : List Char}
    (hpre : pre.data = c0 :: t0) : (pre ++ ch ++ "/" ++ ds) ≠ "" := by
  intro he
  have hd := congrArg String.data he
  rw [data_concat3, hpre] at hd
  simp at hd

theorem pyStrip_concat3 {pre ch ds : String} {c0 : Char} {t0 : List Char}
    (hpre : pre.data = c0 :: t0) (hw0 : c0.isWhitespace = false)
    (hdsne : ds ≠ "") (hds : ∀ c ∈ ds.data, c.isDigit = true) :
    pyStrip (pre ++ ch ++ "/" ++ ds) = (pre ++ ch ++ "/" ++ ds) := by
  obtain ⟨c1, l1, hr, hc1⟩ := last_digit_of_ds hdsne hds
  apply pyStrip_eq_self_of_ends
  · exact ⟨c0, t0 ++ (ch.data ++ '/' :: ds.data),
      by rw [data_concat3, hpre]; simp, hw0⟩
  · obtain ⟨l2, hl2⟩ := @rev_cons_of_tail pre.data ch.data ds c1 l1 hr
    exact ⟨c1, l2, by rw [data_concat3]; exact hl2, isWS_false_of_isDigit hc1⟩

/-- Claim C4: a link of the form t.me/<channel>/<digits> or
    telegram.me/<channel>/<digits> yields the telegram_embed record with
    embed_url https://t.me/<channel>/<post_id>?embed=1&mode=tme and
    preview_url https://t.me/<channel>/<post_id>; an input starting with http
    whose lowercase form contains .mp4, .mkv or .avi (and matching no Telegram
    pattern) is returned unchanged as a direct_video record; every other input
    (including None and the empty string) yields None. -/
theorem c4_convert_telegram_link :
    (∀ ch ds : String, ch ≠ "" → '/' ∉ ch.data → ds ≠ "" →
      (∀ c ∈ ds.data, c.isDigit = true) →
      convert_telegram_link (some ("t.me/" ++ ch ++ "/" ++ ds)) =
        some { original := "t.me/" ++ ch ++ "/" ++ ds
               embed_url := "https://t.me/" ++ ch ++ "/" ++ ds ++ "?embed=1&mode=tme"
               preview_url := "https://t.me/" ++ ch ++ "/" ++ ds
               type := "telegram_embed" }) ∧
    (∀ ch ds : String, ch ≠ "" → '/' ∉ ch.data → ds ≠ "" →
      (∀ c ∈ ds.data, c.isDigit = true) →
      convert_telegram_link (some ("telegram.me/" ++ ch ++ "/" ++ ds)) =
        some { original := "telegram.me/" ++ ch ++ "/" ++ ds
               embed_url := "https://t.me/" ++ ch ++ "/" ++ ds ++ "?embed=1&mode=tme"
               preview_url := "https://t.me/" ++ ch ++ "/" ++ ds
               type := "telegram_embed" }) ∧
    (∀ s : String, s ≠ "" →
      tgPat1 (pyStrip s).data = none → tgPat2 (pyStrip s).data = none →
      tgPat3 (pyStrip s).data = none →
      (startsW (pyStrip s) "http" &&
        (hasSub (pyLower (pyStrip s)) ".mp4" || hasSub (pyLower (pyStrip s)) ".mkv" ||
          hasSub (pyLower (pyStrip s)) ".avi")) = true →
      convert_telegram_link (some s) =
        some { original := pyStrip s, embed_url := pyStrip s,
               preview_url := pyStrip s, type := "direct_video" }) ∧
    (∀ s : String, s ≠ "" →
      tgPat1 (pyStrip s).data = none → tgPat2 (pyStrip s).data = none →
      tgPat3 (pyStrip s).data = none →
      (startsW (pyStrip s) "http" &&
        (hasSub (pyLower (pyStrip s)) ".mp4" || hasSub (pyLower (pyStrip s)) ".mkv" ||
          hasSub (pyLower (pyStrip s)) ".avi")) = false →
      convert_telegram_link (some s) = none) ∧
    convert_telegram_link none = none ∧
    convert_telegram_link (some "") = none := by
  refine ⟨?_, ?_, ?_, ?_, rfl, rfl⟩
  · intro ch ds hch hslash hdsne hds
    have hdata := data_concat3 "t.me/" ch ds
    have hmatch := matchChanPost_append hch hslash hds hdsne
    have hpat1 : tgPat1 ("t.me/" ++ ch ++ "/" ++ ds).data = some (ch, ds) := by
      unfold tgPat1 tmeM
      rw [hdata]
      rw [show ("t.me/").data = (['t', '.', 'm', 'e', '/'] : List Char) from rfl]
      exact scanA_self hmatch
    have hne : ("t.me/" ++ ch ++ "/" ++ ds) ≠ "" :=
      ne_empty_of_concat3 (show ("t.me/").data = 't' :: ['.', 'm', 'e', '/'] from rfl)
    have hstrip := @pyStrip_concat3 "t.me/" ch ds 't' ['.', 'm', 'e', '/']
      (show ("t.me/").data = 't' :: ['.', 'm', 'e', '/'] from rfl) (by decide) hdsne hds
    simp only [convert_telegram_link]
    rw [if_neg hne]
    simp only [hstrip, hpat1, mkTgEmbed]
  · intro ch ds hch hslash hdsne hds
    have hdata := data_concat3 "telegram.me/" ch ds
    have hch' : ∀ a ∈ ch.data, a ≠ '/' := fun a ha he => hslash (he ▸ ha)
    have hp1 : tgPat1 ("telegram.me/" ++ ch ++ "/" ++ ds).data = none := by
      unfold tgPat1
      rw [hdata]
      exact scan_pat1_fail_tel hch' hds
    have hp2 : tgPat2 ("telegram.me/" ++ ch ++ "/" ++ ds).data = none := by
      unfold tgPat2
      rw [hdata]
      exact scan_pat2_fail_tel hch' hds
    have hp3 : tgPat3 ("telegram.me/" ++ ch ++ "/" ++ ds).data = some (ch, ds) := by
      unfold tgPat3 telegramM
      rw [hdata]
      rw [show ("telegram.me/").data =
        (['t', 'e', 'l', 'e', 'g', 'r', 'a', 'm', '.', 'm', 'e', '/'] : List Char) from rfl]
      exact scanA_self (matchChanPost_append hch hslash hds hdsne)
    have hne : ("telegram.me/" ++ ch ++ "/" ++ ds) ≠ "" :=
      ne_empty_of_concat3
        (show ("telegram.me/").data =
          't' :: ['e', 'l', 'e', 'g', 'r', 'a', 'm', '.', 'm', 'e', '/'] from rfl)
    have hstrip := @pyStrip_concat3 "telegram.me/" ch ds 't'
      ['e', 'l', 'e', 'g', 'r', 'a', 'm', '.', 'm', 'e', '/']
      (show ("telegram.me/").data =
        't' :: ['e', 'l', 'e', 'g', 'r', 'a', 'm', '.', 'm', 'e', '/'] from rfl)
      (by decide) hdsne hds
    simp only [convert_telegram_link]
    rw [if_neg hne]
    simp only [hstrip, hp1, hp2, hp3, mkTgEmbed]
  · intro s hs hp1 hp2 hp3 hcond
    simp only [convert_telegram_link]
    rw [if_neg hs]
    simp only [hp1, hp2, hp3, hcond, if_true]
  · intro s hs hp1 hp2 hp3 hcond
    simp only [convert_telegram_link]
    rw [if_neg hs]
    simp only [hp1, hp2, hp3, hcond, Bool.false_eq_true, if_false]

/-- Witness for claim C4 at concrete inputs: a public-channel post link and a
    direct .mp4 link. -/
theorem c4_convert_telegram_link_witness :
    convert_telegram_link (some ("t.me/" ++ "somechannel" ++ "/" ++ "123")) =
      some { original := "t.me/" ++ "somechannel" ++ "/" ++ "123"
             embed_url := "https://t.me/" ++ "somechannel" ++ "/" ++ "123" ++ "?embed=1&mode=tme"
             preview_url := "https://t.me/" ++ "somechannel" ++ "/" ++ "123"
             type := "telegram_embed" } ∧
    convert_telegram_link (some "http://cdn.example.net/movie.MP4") =
      some { original := pyStrip "http://cdn.example.net/movie.MP4"
             embed_url := pyStrip "http://cdn.example.net/movie.MP4"
             preview_url := pyStrip "http://cdn.example.net/movie.MP4"
             type := "direct_video" } :=
  ⟨c4_convert_telegram_link.1 "somechannel" "123" (by decide) (by decide) (by decide)
      (by decide),
    c4_convert_telegram_link.2.2.1 "http://cdn.example.net/movie.MP4" (by decide)
      (by decide) (by decide) (by decide) (by decide)⟩

theorem matchChanPost_private {d1 : String} (d2 : String)
    (hd1 : ∀ c ∈ d1.data, c.isDigit = true) (hd1ne : d1 ≠ "") :
    matchChanPost ('c' :: '/' :: (d1.data ++ '/' :: d2.data)) = some ("c", d1) := by
  obtain ⟨htw, hdw⟩ := @takeWhile_append_all (fun c => c != '/') ['c']
      '/' (d1.data ++ '/' :: d2.data) (by decide) (by decide)
  have htw' : ('c' :: '/' :: (d1.data ++ '/' :: d2.data)).takeWhile (fun c => c != '/') =
      ['c'] := htw
  have hdw' : ('c' :: '/' :: (d1.data ++ '/' :: d2.data)).dropWhile (fun c => c != '/') =
      '/' :: (d1.data ++ '/' :: d2.data) := hdw
  obtain ⟨htw2, _⟩ := @takeWhile_append_all Char.isDigit d1.data '/' d2.data hd1 (by decide)
  have hd1d : d1.data.isEmpty = false := by
    cases hc : d1.data with
    | nil => exact absurd (data_eq_nil_iff.mp hc) hd1ne
    | cons x xs => rfl
  unfold matchChanPost
  simp only [htw', hdw', htw2, hd1d, List.isEmpty_cons, Bool.false_eq_true, if_false]

/-- Claim C9: a private-channel link t.me/c/<digits>/<post> is captured by the
    generic first pattern, binding channel to the literal c and post_id to the
    internal channel id, so the trailing post number is dropped from both the
    embed URL and the preview URL. -/
theorem c9_private_channel_generic_pattern :
    ∀ d1 d2 : String, d1 ≠ "" → (∀ c ∈ d1.data, c.isDigit = true) →
      d2 ≠ "" → (∀ c ∈ d2.data, c.isDigit = true) →
      convert_telegram_link (some ("t.me/c/" ++ d1 ++ "/" ++ d2)) =
        some { original := "t.me/c/" ++ d1 ++ "/" ++ d2
               embed_url := "https://t.me/" ++ "c" ++ "/" ++ d1 ++ "?embed=1&mode=tme"
               preview_url := "https://t.me/" ++ "c" ++ "/" ++ d1
               type := "telegram_embed" } := by
  intro d1 d2 hd1ne hd1 hd2ne hd2
  have hdata := data_concat3 "t.me/c/" d1 d2
  have hpat1 : tgPat1 ("t.me/c/" ++ d1 ++ "/" ++ d2).data = some ("c", d1) := by
    unfold tgPat1 tmeM
    rw [hdata]
    rw [show ("t.me/c/").data ++ (d1.data ++ '/' :: d2.data) =
      (['t', '.', 'm', 'e', '/'] : List Char) ++
        ('c' :: '/' :: (d1.data ++ '/' :: d2.data)) from rfl]
    exact scanA_self (matchChanPost_private d2 hd1 hd1ne)
  have hne : ("t.me/c/" ++ d1 ++ "/" ++ d2) ≠ "" :=
    ne_empty_of_concat3
      (show ("t.me/c/").data = 't' :: ['.', 'm', 'e', '/', 'c', '/'] from rfl)
  have hstrip := @pyStrip_concat3 "t.me/c/" d1 d2 't' ['.', 'm', 'e', '/', 'c', '/']
    (show ("t.me/c/").data = 't' :: ['.', 'm', 'e', '/', 'c', '/'] from rfl)
    (by decide) hd2ne hd2
  simp only [convert_telegram_link]
  rw [if_neg hne]
  simp only [hstrip, hpat1, mkTgEmbed]

/-- Witness for claim C9 at a concrete private-channel link. -/
theorem c9_private_channel_generic_pattern_witness :
    convert_telegram_link (some ("t.me/c/" ++ "1234567" ++ "/" ++ "89")) =
      some { original := "t.me/c/" ++ "1234567" ++ "/" ++ "89"
             embed_url := "https://t.me/" ++ "c" ++ "/" ++ "1234567" ++ "?embed=1&mode=tme"
             preview_url := "https://t.me/" ++ "c" ++ "/" ++ "1234567"
             type := "telegram_embed" } :=
  c9_private_channel_generic_pattern "1234567" "89" (by decide) (by decide) (by decide)
    (by decide)

/-! ### StreamScraper.scrape_all (scraper.py lines 94-141)

Channels come from channels.json: each channel dict may carry name, id, logo,
genre and a sources dict (label → URL).  Dicts with optional fields are
modeled as structures of Options; the sources dict is modeled as its
insertion-ordered item list (keys are unique in a Python dict).  The genres
config maps a genre key to a {name, icon} entry. -/

structure GenreInfo where
  name : String
  icon : String
deriving DecidableEq, Repr

structure Channel where
  name : Option String
  id : Option String
  logo : Option String
  genre : Option String
  sources : List (String × Option String)
deriving DecidableEq, Repr

structure SourceRec where
  url : String
  type : Option String
deriving DecidableEq, Repr

structure StreamRec where
  id : String
  name : String
  logo : String
  genre : String
  url : String
  source_type : Option String
  sources : List (String × SourceRec)
  updated_at : String
deriving DecidableEq, Repr

/-- First-match association-list lookup (Python dict .get). -/
def lookupA {α : Type} : List (String × α) → String → Option α
  | [], _ => none
  | (k, v) :: t, key => if k = key then some v else lookupA t key

/-- UTF-8 encoding of a character (byte values as Nat). -/
def utf8Bytes (c : Char) : List Nat :=
  let n := c.toNat
  if n < 128 then [n]
  else if n < 2048 then [192 + n / 64, 128 + n % 64]
  else if n < 65536 then [224 + n / 4096, 128 + n / 64 % 64, 128 + n % 64]
  else [240 + n / 262144, 128 + n / 4096 % 64, 128 + n / 64 % 64, 128 + n % 64]

def hexDigitU (n : Nat) : Char :=
  if n < 10 then Char.ofNat (48 + n) else Char.ofNat (55 + n)

/-- Bytes urllib.parse.quote leaves unescaped: letters, digits, _.-~ and the
    default safe character / . -/
def quoteSafe (b : Nat) : Bool :=
  (65 ≤ b && b ≤ 90) || (97 ≤ b && b ≤ 122) || (48 ≤ b && b ≤ 57) ||
  (b == 95) || (b == 46) || (b == 45) || (b == 126) || (b == 47)

def quoteByte (b : Nat) : List Char :=
  if quoteSafe b then [Char.ofNat b] else ['%', hexDigitU (b / 16), hexDigitU (b % 16)]

/-- urllib.parse.quote with the default safe characters (percent-encodes the
    UTF-8 bytes). -/
def pyQuote (s : String) : String :=
  ⟨(((s.data.map utf8Bytes).flatten).map quoteByte).flatten⟩

/-- StreamScraper.get_logo_url (scraper.py lines 17-23). -/
def get_logo_url (logo_filename : String) : String :=
  if startsW logo_filename "http" then logo_filename
  else "https://hecker723626.github.io/tv-streams/logos/" ++ pyQuote logo_filename

/-- The processed_sources dict built for one channel (lines 112-119): sources
    whose URL processes to a truthy value, each with its re-detected type. -/
def process_channel_sources (fetch : String → Option String) (ch : Channel) :
    List (String × SourceRec) :=
  ch.sources.foldl
    (fun acc kv =>
      match process_source fetch kv.2 with
      | some pu => acc ++ [(kv.1, { url := pu, type := detect_source_type (some pu) })]
      | none => acc)
    []

/-- The stream record appended for a successful channel (lines 122-133);
    `fs` is the first processed source and `now` models datetime.utcnow(). -/
def make_record (now : String) (ch : Channel) (ps : List (String × SourceRec))
    (fs : String × SourceRec) : StreamRec :=
  { id := ch.id.getD (pyReplace (pyLower (ch.name.getD "Unknown")) " " "-")
    name := ch.name.getD "Unknown"
    logo := get_logo_url (ch.logo.getD "placeholder.png")
    genre := ch.genre.getD "entertainment"
    url := fs.2.url
    source_type := fs.2.type
    sources := ps
    updated_at := now }

/-- One loop iteration of scrape_all over (streams, success_count, fail_count). -/
def scrape_step (fetch : String → Option String) (now : String)
    (acc : List StreamRec × Nat × Nat) (ch : Channel) : List StreamRec × Nat × Nat :=
  if ch.sources.isEmpty then (acc.1, acc.2.1, acc.2.2 + 1)
  else
    match process_channel_sources fetch ch with
    | [] => (acc.1, acc.2.1, acc.2.2 + 1)
    | fs :: rest => (acc.1 ++ [make_record now ch (fs :: rest) fs], acc.2.1 + 1, acc.2.2)

/-- StreamScraper.scrape_all; `init` is the self.streams list the method
    appends to (empty for a freshly constructed scraper), and the returned
    first component is the streams list it returns. -/
def scrape_all (fetch : String → Option String) (now : String)
    (init : List StreamRec) (channels : List Channel) : List StreamRec × Nat × Nat :=
  channels.foldl (scrape_step fetch now) (init, 0, 0)

/-- The record a single channel contributes (none when it fails). -/
def channel_record (fetch : String → Option String) (now : String) (ch : Channel) :
    Option StreamRec :=
  match process_channel_sources fetch ch with
  | [] => none
  | fs :: rest => some (make_record now ch (fs :: rest) fs)

theorem pcs_nil_of_sources_nil {fetch : String → Option String} {ch : Channel}
    (h : ch.sources = []) : process_channel_sources fetch ch = [] := by
  unfold process_channel_sources
  rw [h]
  rfl

theorem pcs_general {fetch : String → Option String} (sources : List (String × Option String)) :
    ∀ acc, sources.foldl
      (fun acc kv =>
        match process_source fetch kv.2 with
        | some pu => acc ++ [(kv.1, { url := pu, type := detect_source_type (some pu) })]
        | none => acc) acc =
      acc ++ sources.foldl
        (fun acc kv =>
          match process_source fetch kv.2 with
          | some pu => acc ++ [(kv.1, ({ url := pu, type := detect_source_type (some pu) } : SourceRec))]
          | none => acc) [] := by
  induction sources with
  | nil => intro acc; simp
  | cons kv rest ih =>
    intro acc
    simp only [List.foldl_cons]
    cases hp : process_source fetch kv.2 with
    | none =>
      simp only []
      exact ih acc
    | some pu =>
      simp only [List.nil_append]
      rw [ih (acc ++ [(kv.1, ({ url := pu, type := detect_source_type (some pu) } : SourceRec))]),
        ih [(kv.1, ({ url := pu, type := detect_source_type (some pu) } : SourceRec))]]
      simp

theorem pcs_fold_nil_iff {fetch : String → Option String}
    (sources : List (String × Option String)) :
    sources.foldl
      (fun acc kv =>
        match process_source fetch kv.2 with
        | some pu => acc ++ [(kv.1, ({ url := pu, type := detect_source_type (some pu) } : SourceRec))]
        | none => acc) [] = [] ↔
      ∀ kv ∈ sources, process_source fetch kv.2 = none := by
  induction sources with
  | nil => simp
  | cons kv rest ih =>
    simp only [List.foldl_cons, List.mem_cons]
    cases hp : process_source fetch kv.2 with
    | none =>
      simp only []
      constructor
      · intro h x hx
        rcases hx with rfl | hx
        · exact hp
        · exact ih.mp h x hx
      · intro h
        exact ih.mpr (fun x hx => h x (Or.inr hx))
    | some pu =>
      simp only []
      constructor
      · intro h
        rw [pcs_general] at h
        simp at h
      · intro h
        exact absurd (h kv (Or.inl rfl)) (by simp [hp])

theorem pcs_nil_iff {fetch : String → Option String} {ch : Channel} :
    process_channel_sources fetch ch = [] ↔
      ∀ kv ∈ ch.sources, process_source fetch kv.2 = none := by
  unfold process_channel_sources
  exact pcs_fold_nil_iff ch.sources

theorem scrape_aux (fetch : String → Option String) (now : String) :
    ∀ (cs : List Channel) (init : List StreamRec) (s f : Nat),
      cs.foldl (scrape_step fetch now) (init, s, f) =
        (init ++ cs.filterMap (channel_record fetch now),
          s + cs.countP (fun ch => !(process_channel_sources fetch ch).isEmpty),
          f + cs.countP (fun ch => (process_channel_sources fetch ch).isEmpty)) := by
  intro cs
  induction cs with
  | nil =>
    intro init s f
    simp
  | cons ch rest ih =>
    intro init s f
    simp only [List.foldl_cons, List.filterMap_cons, List.countP_cons]
    cases hpcs : process_channel_sources fetch ch with
    | nil =>
      have hstep : scrape_step fetch now (init, s, f) ch = (init, s, f + 1) := by
        unfold scrape_step
        rw [hpcs]
        split <;> rfl
      rw [hstep, ih]
      simp only [channel_record, hpcs, Prod.mk.injEq]
      refine ⟨?_, ?_, ?_⟩ <;>
        first
          | trivial
          | omega
          | (simp [hpcs] <;> omega)
    | cons fs rest2 =>
      have hse : ch.sources.isEmpty = false := by
        cases hs : ch.sources with
        | nil =>
          exact absurd (@pcs_nil_of_sources_nil fetch ch hs) (by simp [hpcs])
        | cons a b => rfl
      have hstep : scrape_step fetch now (init, s, f) ch =
          (init ++ [make_record now ch (fs :: rest2) fs], s + 1, f) := by
        unfold scrape_step
        rw [hse, hpcs]
        simp
      rw [hstep, ih]
      simp only [channel_record, hpcs, Prod.mk.injEq]
      refine ⟨?_, ?_, ?_⟩ <;>
        first
          | trivial
          | omega
          | (simp [hpcs] <;> omega)
          | simp

/-- Claim C5: scrape_all visits every channel; a channel with an empty sources
    dict, or all of whose source URLs process to None, is counted as a failure
    and contributes no record, every other channel contributes exactly one
    record, failures never prevent later channels from being processed, the
    success and failure counts sum to the number of channels, and the streams
    list is returned. -/
theorem c5_scrape_all_partial_failure (fetch : String → Option String) (now : String)
    (cs : List Channel) :
    scrape_all fetch now [] cs =
      (cs.filterMap (channel_record fetch now),
        cs.countP (fun ch => !(process_channel_sources fetch ch).isEmpty),
        cs.countP (fun ch => (process_channel_sources fetch ch).isEmpty)) ∧
    cs.countP (fun ch => !(process_channel_sources fetch ch).isEmpty) +
        cs.countP (fun ch => (process_channel_sources fetch ch).isEmpty) = cs.length ∧
    ∀ ch : Channel, (channel_record fetch now ch = none ↔
      (ch.sources = [] ∨ ∀ kv ∈ ch.sources, process_source fetch kv.2 = none)) := by
  refine ⟨?_, ?_, ?_⟩
  · unfold scrape_all
    rw [scrape_aux]
    simp
  · induction cs with
    | nil => rfl
    | cons ch rest ih =>
      cases hb : (process_channel_sources fetch ch).isEmpty <;>
        simp [List.countP_cons, hb] <;> omega
  · intro ch
    unfold channel_record
    cases hpcs : process_channel_sources fetch ch with
    | nil =>
      simp only []
      constructor
      · intro _
        exact Or.inr (pcs_nil_iff.mp hpcs)
      · intro _
        trivial
    | cons fs rest2 =>
      simp only []
      constructor
      · intro h
        exact absurd h (by simp)
      · rintro (hsrc | hall)
        · have := @pcs_nil_of_sources_nil fetch ch hsrc
          rw [hpcs] at this
          simp at this
        · have := pcs_nil_iff.mpr hall
          rw [hpcs] at this
          simp at this

/-- Witness for claim C5 on a concrete two-channel run: the first channel
    succeeds with its single source, the second has no sources and fails. -/
theorem c5_scrape_all_partial_failure_witness :
    scrape_all (fun _ => none) "T0" []
        [{ name := some "A", id := none, logo := none, genre := none,
           sources := [("main", some "example.com")] },
         { name := some "B", id := none, logo := none, genre := none,
           sources := [] }] =
      ([{ name := some "A", id := none, logo := none, genre := none,
          sources := [("main", some "example.com")] },
        { name := some "B", id := none, logo := none, genre := none,
          sources := [] }].filterMap (channel_record (fun _ => none) "T0"),
        [{ name := some "A", id := none, logo := none, genre := none,
           sources := [("main", some "example.com")] },
         { name := some "B", id := none, logo := none, genre := none,
           sources := [] }].countP
          (fun ch => !(process_channel_sources (fun _ => none) ch).isEmpty),
        [{ name := some "A", id := none, logo := none, genre := none,
           sources := [("main", some "example.com")] },
         { name := some "B", id := none, logo := none, genre := none,
           sources := [] }].countP
          (fun ch => (process_channel_sources (fun _ => none) ch).isEmpty)) :=
  (c5_scrape_all_partial_failure (fun _ => none) "T0" _).1

/-- Claim C6: the transformation performed by scrape_all is a pure single-pass
    function of the channel list — the streams it returns are the input
    self.streams followed by one optional record per channel computed from
    that channel alone, in input order; in particular splitting the list
    around any channel splits the output accordingly, each channel is
    processed exactly once, and two runs over identically configured scrapers
    (same channels, same remote responses, same clock) produce the same list. -/
theorem c6_scrape_all_stateless_single_pass (fetch : String → Option String)
    (now : String) :
    (∀ (init : List StreamRec) (cs : List Channel),
      (scrape_all fetch now init cs).1 = init ++ cs.filterMap (channel_record fetch now)) ∧
    (∀ (xs ys : List Channel) (ch : Channel),
      (scrape_all fetch now [] (xs ++ ch :: ys)).1 =
        (scrape_all fetch now [] xs).1 ++ (channel_record fetch now ch).toList ++
          (scrape_all fetch now [] ys).1) := by
  have hmain : ∀ (init : List StreamRec) (cs : List Channel),
      (scrape_all fetch now init cs).1 =
        init ++ cs.filterMap (channel_record fetch now) := by
    intro init cs
    unfold scrape_all
    rw [scrape_aux]
  refine ⟨hmain, ?_⟩
  intro xs ys ch
  rw [hmain, hmain, hmain]
  simp only [List.filterMap_append, List.filterMap_cons, List.nil_append]
  cases channel_record fetch now ch <;> simp

/-! ### StreamScraper.generate_m3u8 (scraper.py lines 143-155) -/

/-- `self.genres.get(genre, {}).get('name', genre.title())`: the configured
    genre entries carry a name (the code's other use, generate_index_html,
    reads genre_info["name"] unconditionally), so a known key yields its
    configured name and an unknown key falls back to the title-cased key. -/
def m3u8_genre_name (genres : List (String × GenreInfo)) (key : String) : String :=
  match lookupA genres key with
  | some gi => gi.name
  | none => pyTitle key

/-- The EXTINF line built for one stream (without its newline): tvg-id is the
    stream id, tvg-name and the display name are the stream name, tvg-logo the
    logo, group-title the genre display name. -/
def extinf_line (genres : List (String × GenreInfo)) (s : StreamRec) : String :=
  "#EXTINF:-1 tvg-id=\"" ++ s.id ++ "\" " ++ "tvg-name=\"" ++ s.name ++ "\" " ++
    "tvg-logo=\"" ++ s.logo ++ "\" " ++ "group-title=\"" ++
    m3u8_genre_name genres s.genre ++ "\"," ++ s.name

/-- What one loop iteration appends: the EXTINF line and the URL line. -/
def m3u8_entry (genres : List (String × GenreInfo)) (s : StreamRec) : String :=
  extinf_line genres s ++ "\n" ++ s.url ++ "\n"

def generate_m3u8 (genres : List (String × GenreInfo)) (streams : List StreamRec) :
    String :=
  streams.foldl (fun acc s => acc ++ m3u8_entry genres s) "#EXTM3U\n"

/-- The line decomposition of a string (split at every newline). -/
def splitNl (s : String) : List (List Char) := spAux ['\n'] 0 s.data

theorem generate_m3u8_data (genres : List (String × GenreInfo)) :
    ∀ (ss : List StreamRec) (a : String),
      (ss.foldl (fun acc s => acc ++ m3u8_entry genres s) a).data =
        a.data ++ (ss.map (fun s => (m3u8_entry genres s).data)).flatten := by
  intro ss
  induction ss with
  | nil =>
    intro a
    simp
  | cons s rest ih =>
    intro a
    simp only [List.foldl_cons, List.map_cons, List.flatten_cons]
    rw [ih (a ++ m3u8_entry genres s), strData_append]
    simp

theorem spAux_nl_append {chunk rest : List Char} (h : '\n' ∉ chunk) :
    spAux ['\n'] 0 (chunk ++ '\n' :: rest) = chunk :: spAux ['\n'] 0 rest := by
  induction chunk with
  | nil =>
    simp [spAux, leadsWith]
  | cons c t ih =>
    have hc : c ≠ '\n' := fun he => h (by simp [he])
    have hlw : leadsWith ['\n'] (c :: (t ++ '\n' :: rest)) = false :=
      lw1 (by simpa using fun he => hc he.symm)
    have h' : '\n' ∉ t := fun ht => h (by simp [ht])
    simp only [List.cons_append]
    simp [spAux, hlw, ih h']

theorem entries_split (genres : List (String × GenreInfo)) :
    ∀ ss : List StreamRec,
      (∀ s ∈ ss, '\n' ∉ (extinf_line genres s).data ∧ '\n' ∉ s.url.data) →
      spAux ['\n'] 0 ((ss.map (fun s => (m3u8_entry genres s).data)).flatten) =
        (ss.map (fun s => [(extinf_line genres s).data, s.url.data])).flatten ++ [[]] := by
  intro ss
  induction ss with
  | nil =>
    intro _
    rfl
  | cons s rest ih =>
    intro h
    obtain ⟨h1, h2⟩ := h s (by simp)
    have hrest : ∀ x ∈ rest, '\n' ∉ (extinf_line genres x).data ∧ '\n' ∉ x.url.data :=
      fun x hx => h x (by simp [hx])
    simp only [List.map_cons, List.flatten_cons]
    have hdat : (m3u8_entry genres s).data ++
        (rest.map (fun s => (m3u8_entry genres s).data)).flatten =
        (extinf_line genres s).data ++ '\n' ::
          (s.url.data ++ '\n' ::
            (rest.map (fun s => (m3u8_entry genres s).data)).flatten) := by
      unfold m3u8_entry
      rw [strData_append, strData_append, strData_append]
      rw [show ("\n" : String).data = ['\n'] from rfl]
      simp
    rw [hdat, spAux_nl_append h1, spAux_nl_append h2, ih hrest]
    simp

/-- Claim C8: generate_m3u8 yields exactly `#EXTM3U\n` for an empty list, and
    in general its output splits at newlines into the `#EXTM3U` header, then
    for each stream in order exactly one EXTINF line (carrying id, name, logo
    and the genre display name — the configured name for a known genre key,
    the title-cased key otherwise) followed by exactly one URL line (the final
    empty chunk is the text after the trailing newline). -/
theorem c8_generate_m3u8_lines (genres : List (String × GenreInfo))
    (streams : List StreamRec) :
    generate_m3u8 genres [] = "#EXTM3U\n" ∧
    ((∀ s ∈ streams, '\n' ∉ (extinf_line genres s).data ∧ '\n' ∉ s.url.data) →
      splitNl (generate_m3u8 genres streams) =
        ("#EXTM3U").data ::
          (streams.map (fun s => [(extinf_line genres s).data, s.url.data])).flatten ++
          [[]]) := by
  refine ⟨rfl, ?_⟩
  intro hnl
  unfold splitNl generate_m3u8
  rw [generate_m3u8_data]
  have hsplit : ("#EXTM3U\n").data ++
      (streams.map (fun s => (m3u8_entry genres s).data)).flatten =
      ("#EXTM3U").data ++ '\n' ::
        (streams.map (fun s => (m3u8_entry genres s).data)).flatten := rfl
  rw [hsplit, spAux_nl_append (by decide), entries_split genres streams hnl]
  rfl

/-- Witness for claim C8 on a concrete two-stream list with one known and one
    unknown genre key. -/
theorem c8_generate_m3u8_lines_witness :
    splitNl (generate_m3u8 [("news", { name := "News TV", icon := "N" })]
        [{ id := "ch1", name := "One", logo := "https://l/1.png", genre := "news",
           url := "https://s/1.m3u8", source_type := some "direct_m3u8",
           sources := [], updated_at := "T" },
         { id := "ch2", name := "Two", logo := "https://l/2.png", genre := "kids shows",
           url := "https://s/2.m3u8", source_type := some "direct_m3u8",
           sources := [], updated_at := "T" }]) =
      ("#EXTM3U").data ::
        ([{ id := "ch1", name := "One", logo := "https://l/1.png", genre := "news",
            url := "https://s/1.m3u8", source_type := some "direct_m3u8",
            sources := [], updated_at := "T" },
          { id := "ch2", name := "Two", logo := "https://l/2.png", genre := "kids shows",
            url := "https://s/2.m3u8", source_type := some "direct_m3u8",
            sources := [], updated_at := "T" }].map
          (fun s => [(extinf_line [("news", { name := "News TV", icon := "N" })] s).data,
            s.url.data])).flatten ++ [[]] :=
  (c8_generate_m3u8_lines _ _).2 (by decide)

/-! ### StreamScraper.save_outputs (scraper.py lines 157-177) and
     generate_index_html (lines 179-482)

File writes are modeled as the list of (filename, content) pairs produced in
order.  streams.json is written with json.dump of a four-field object, modeled
structurally.  index.html is the player page; its fixed HTML/CSS/JS template
is constant, so the page is modeled by the data interpolated into it: the
genre tabs (with genre info and channel counts, in by_genre order), the
channel-card sections grouped by genre, the total channel count and the
timestamp. -/

structure StreamsJson where
  last_updated : String
  total_streams : Nat
  genres : List (String × GenreInfo)
  streams : List StreamRec
deriving DecidableEq, Repr

/-- The by_genre grouping loop at the top of generate_index_html: first
    occurrence order of genres, channels appended in stream order. -/
def addToGenre : List (String × List StreamRec) → StreamRec →
    List (String × List StreamRec)
  | [], s => [(s.genre, [s])]
  | (g, l) :: rest, s =>
    if g = s.genre then (g, l ++ [s]) :: rest else (g, l) :: addToGenre rest s

def by_genre (streams : List StreamRec) : List (String × List StreamRec) :=
  streams.foldl addToGenre []

structure HtmlPage where
  tabs : List (String × GenreInfo × Nat)
  sections : List (String × List StreamRec)
  total : Nat
  stamp : String
deriving DecidableEq, Repr

/-- generate_index_html, modeled by its interpolated data (the surrounding
    HTML/CSS/JS template text is a constant): tabs carry
    `self.genres.get(genre, {'name': genre.title(), 'icon': '📺'})` and the
    channel count, sections carry the grouped channel cards. -/
def generate_index_html (genres : List (String × GenreInfo))
    (streams : List StreamRec) (stamp : String) : HtmlPage :=
  let bg := by_genre streams
  { tabs := bg.map (fun gc =>
      (gc.1, (lookupA genres gc.1).getD { name := pyTitle gc.1, icon := "📺" },
        gc.2.length))
    sections := bg
    total := streams.length
    stamp := stamp }

inductive FileData where
  | text : String → FileData
  | jsonCatalog : StreamsJson → FileData
  | page : HtmlPage → FileData
deriving DecidableEq, Repr

/-- StreamScraper.save_outputs: the three files written, in order; `nowJson`
    and `stamp` model the two datetime.utcnow() calls. -/
def save_outputs (genres : List (String × GenreInfo)) (streams : List StreamRec)
    (nowJson stamp : String) : List (String × FileData) :=
  [("playlist.m3u8", FileData.text (generate_m3u8 genres streams)),
   ("streams.json", FileData.jsonCatalog
      { last_updated := nowJson, total_streams := streams.length,
        genres := genres, streams := streams }),
   ("index.html", FileData.page (generate_index_html genres streams stamp))]

/-- Claim C7: save_outputs writes exactly three artifacts — playlist.m3u8 with
    the generated M3U8 text, streams.json with a JSON object carrying
    last_updated, total_streams (the length of the streams list), genres and
    streams, and index.html with the generated HTML page — and nothing else. -/
theorem c7_save_outputs_three_artifacts (genres : List (String × GenreInfo))
    (streams : List StreamRec) (nowJson stamp : String) :
    save_outputs genres streams nowJson stamp =
      [("playlist.m3u8", FileData.text (generate_m3u8 genres streams)),
       ("streams.json", FileData.jsonCatalog
          { last_updated := nowJson, total_streams := streams.length,
            genres := genres, streams := streams }),
       ("index.html", FileData.page (generate_index_html genres streams stamp))] ∧
    (save_outputs genres streams nowJson stamp).map Prod.fst =
      ["playlist.m3u8", "streams.json", "index.html"] ∧
    (save_outputs genres streams nowJson stamp).length = 3 :=
  ⟨rfl, rfl, rfl⟩

end TvStreams
